import Mathlib

/-!
# Verification of the Mollang highlighter core

Shallow embedding of `src/core/keywords.py` and `src/core/highlighter.py`:
the keyword registry (`KeywordManager`), its structural validation
(`MollangKeywords.validate_keyword_data`), the pattern catalog, the rule
compiler (`_setup_highlighting_rules` / `_add_custom_keyword_rules`) and the
classification engine (`highlightBlock`).

Python's dynamically-typed JSON-ish values (the keyword payloads) are embedded
as `PyValue`; Python dicts are modelled as insertion-ordered association lists
with unique string keys, which is how every dict in this code base is built.
-/

/-- A Python value as used by the keyword registry: strings, lists and dicts
(dict keys in this code base are always strings). -/
inductive PyValue : Type where
  | str : String → PyValue
  | list : List PyValue → PyValue
  | dict : List (String × PyValue) → PyValue

namespace PyValue

mutual

/-- Python `==` on embedded values (structural equality). -/
def beqV : PyValue → PyValue → Bool
  | .str a, .str b => a == b
  | .list a, .list b => beqListV a b
  | .dict a, .dict b => beqDictV a b
  | _, _ => false

/-- Python `==` on lists of values. -/
def beqListV : List PyValue → List PyValue → Bool
  | [], [] => true
  | x :: xs, y :: ys => beqV x y && beqListV xs ys
  | _, _ => false

/-- Python `==` on dict entry lists. -/
def beqDictV : List (String × PyValue) → List (String × PyValue) → Bool
  | [], [] => true
  | (a, x) :: xs, (b, y) :: ys => a == b && beqV x y && beqDictV xs ys
  | _, _ => false

end

/-- First-match lookup in a dict's entry list (Python `d[k]` / `k in d`;
Python dicts have unique keys, so first-match is exact). -/
def lookupKey : List (String × PyValue) → String → Option PyValue
  | [], _ => none
  | (a, v) :: t, k => if a = k then some v else lookupKey t k

/-- Python `d[k] = v`: replace the value of an existing key in place,
otherwise append at the end (insertion order preserved). -/
def setKey : List (String × PyValue) → String → PyValue → List (String × PyValue)
  | [], k, v => [(k, v)]
  | (a, w) :: t, k, v => if a = k then (k, v) :: t else (a, w) :: setKey t k v

/-- Python `del d[k]`: drop the entry with the given key. -/
def delKey : List (String × PyValue) → String → List (String × PyValue)
  | [], _ => []
  | (a, w) :: t, k => if a = k then t else (a, w) :: delKey t k

/-- The entry list of a dict value; `none` when the value is not a dict
(a Python dict operation on it would raise). -/
def dictEntries : PyValue → Option (List (String × PyValue))
  | .dict l => some l
  | _ => none

/-- Python `x in xs` for a list value (membership by `==`). -/
def memV (w : PyValue) : List PyValue → Bool
  | [] => false
  | x :: t => if beqV x w then true else memV w t

/-- Python `xs.remove(x)`: drop the first occurrence (by `==`). -/
def eraseOneV (w : PyValue) : List PyValue → List PyValue
  | [] => []
  | x :: t => if beqV x w then t else x :: eraseOneV w t

end PyValue

/-! ## Syntax colors (`constants.py`, class `SyntaxColors`)

Named without the source's `SyntaxColors.` prefix / upper-case style. -/

def colorVariable : String := "#00FFFF"

def colorKeywordSimple : String := "#2196F3"

def colorKeywordComplex : String := "#FF6B35"

def colorOperatorSingle : String := "#FFC107"

def colorOperatorMulti : String := "#FF9800"

def colorHeapMemory : String := "#E91E63"

def colorStringIo : String := "#00E676"

def colorFunctionName : String := "#4CAF50"

def colorExitFormat : String := "#9C27B0"

def colorPunctuation : String := "#9E9E9E"

/-! ## Default keywords (`MollangKeywords.get_default_keywords`) -/

/-- Helper to build one category dict `{'words': [...], 'color': c}`. -/
def mkCat (ws : List String) (c : String) : PyValue :=
  .dict [("words", .list (ws.map PyValue.str)), ("color", .str c)]

/-- The entry list of `MollangKeywords.get_default_keywords()`. -/
def defaultKeywordEntries : List (String × PyValue) :=
  [ ("제어_키워드", mkCat ["은?행", "털!자", "돌!자", "짓!자"] colorKeywordComplex)
  , ("점프_키워드", mkCat ["가!자", "가자!"] colorKeywordComplex)
  , ("입출력_키워드", mkCat ["루", "루?", "루!", "아"] colorKeywordSimple)
  , ("종료_키워드", mkCat ["0ㅅ0"] colorExitFormat)
  , ("함수명", mkCat ["뭵뤩", "뭵뤡", "말랑", "머리", "무릎", "망령", "매립", "무리", "밀랍"]
      colorFunctionName) ]

/-- `MollangKeywords.get_default_keywords()`. -/
def getDefaultKeywords : PyValue := .dict defaultKeywordEntries

/-! ## Validation (`MollangKeywords.validate_keyword_data`) -/

/-- `MollangKeywords.validate_keyword_data(keywords)`: the value must be a dict;
each category value must be a dict having both a `'words'` key bound to a list
and a `'color'` key bound to a string.  Nothing else is checked (in
particular, neither hex-decodability of the color nor duplicate words). -/
def validateKeywordData (keywords : PyValue) : Bool :=
  match keywords with
  | .dict entries =>
    entries.all fun e =>
      match e.2 with
      | .dict d =>
        (match PyValue.lookupKey d "words" with
         | some (.list _) => true
         | _ => false)
        &&
        (match PyValue.lookupKey d "color" with
         | some (.str _) => true
         | _ => false)
      | _ => false
  | _ => false

/-! ## The keyword manager (`KeywordManager`)

Effects are modelled by traces: each `_notify_change()` call appends one entry
to `notifyLog`, recording the outcome of every registered callback (a callback
is a function that may raise, embedded as `PyValue → Except String Unit`) and
the mapping it was invoked with.  Operations that would raise a Python
exception on ill-shaped (unreachable) states return `none`. -/

/-- A registered change callback: receives the new mapping, may raise. -/
abbrev Callback : Type := PyValue → Except String Unit

/-- `KeywordManager`'s state: the `_keywords` dict, the `_change_callbacks`
list, and the trace of notifications delivered so far. -/
structure Manager : Type where
  keywords : PyValue
  callbacks : List Callback
  notifyLog : List (List (Except String Unit) × PyValue)

/-- The loop body of `KeywordManager._notify_change`: each callback is invoked
in order inside `try/except`; a raising callback's error is reported (recorded
in the outcome list) and the loop continues with the remaining callbacks. -/
def notifyChange (cbs : List Callback) (kw : PyValue) : List (Except String Unit) :=
  match cbs with
  | [] => []
  | cb :: rest =>
    match cb kw with
    | .ok u => .ok u :: notifyChange rest kw
    | .error e => .error e :: notifyChange rest kw

/-- `KeywordManager._notify_change()`: notify every callback with the current
`_keywords`, recording the delivery in the trace. -/
def notifyM (m : Manager) : Manager :=
  { m with notifyLog := m.notifyLog ++ [(notifyChange m.callbacks m.keywords, m.keywords)] }

/-- `KeywordManager.__init__`: default keywords, no callbacks. -/
def initManager : Manager :=
  { keywords := getDefaultKeywords, callbacks := [], notifyLog := [] }

/-- `KeywordManager.get_keywords()`: returns `self._keywords.copy()`; in the
pure model a copy is the value itself. -/
def getKeywords (m : Manager) : PyValue := m.keywords

/-- `KeywordManager.set_keywords(new_keywords)`: validate, then replace the
whole mapping and notify; on validation failure return `False` unchanged. -/
def setKeywords (m : Manager) (newKeywords : PyValue) : Manager × Bool :=
  if validateKeywordData newKeywords then
    (notifyM { m with keywords := newKeywords }, true)
  else
    (m, false)

/-- `KeywordManager.add_keyword(category, word, color)`.  Creates the category
if absent; if the word is not yet present, appends it, updates the category's
color, notifies and returns `True`; otherwise returns `False`. -/
def addKeyword (m : Manager) (category : String) (word color : PyValue) :
    Option (Manager × Bool) :=
  match PyValue.dictEntries m.keywords with
  | none => none
  | some entries =>
    let entries1 :=
      if (PyValue.lookupKey entries category).isSome then entries
      else PyValue.setKey entries category (.dict [("words", .list []), ("color", color)])
    match PyValue.lookupKey entries1 category with
    | none => none
    | some data =>
      match PyValue.dictEntries data with
      | none => none
      | some dentries =>
        match PyValue.lookupKey dentries "words" with
        | some (.list ws) =>
          if PyValue.memV word ws then
            some ({ m with keywords := .dict entries1 }, false)
          else
            let dentries1 := PyValue.setKey dentries "words" (.list (ws ++ [word]))
            let dentries2 := PyValue.setKey dentries1 "color" color
            let kw1 := PyValue.setKey entries1 category (.dict dentries2)
            some (notifyM { m with keywords := .dict kw1 }, true)
        | _ => none

/-- `KeywordManager.remove_keyword(category, word)`.  If the category and the
word exist, removes the first occurrence of the word, deletes the category
when its word list became empty, notifies and returns `True`; otherwise
returns `False` unchanged. -/
def removeKeyword (m : Manager) (category : String) (word : PyValue) :
    Option (Manager × Bool) :=
  match PyValue.dictEntries m.keywords with
  | none => none
  | some entries =>
    match PyValue.lookupKey entries category with
    | none => some (m, false)
    | some data =>
      match PyValue.dictEntries data with
      | none => none
      | some dentries =>
        match PyValue.lookupKey dentries "words" with
        | some (.list ws) =>
          if PyValue.memV word ws then
            let ws1 := PyValue.eraseOneV word ws
            let kw1 :=
              if ws1.isEmpty then PyValue.delKey entries category
              else PyValue.setKey entries category
                (.dict (PyValue.setKey dentries "words" (.list ws1)))
            some (notifyM { m with keywords := .dict kw1 }, true)
          else
            some (m, false)
        | _ => none

/-- `KeywordManager.update_keyword(old_category, old_word, new_category,
new_word, new_color)`: remove the old pair (its result is discarded), then
add the new one and return the add's result. -/
def updateKeyword (m : Manager) (oldCategory : String) (oldWord : PyValue)
    (newCategory : String) (newWord newColor : PyValue) : Option (Manager × Bool) :=
  match removeKeyword m oldCategory oldWord with
  | none => none
  | some r => addKeyword r.1 newCategory newWord newColor

/-! ## Regular-expression patterns (`QRegularExpression`, i.e. PCRE2)

The catalog only uses: literals, character classes, greedy counted repetition
of a single-character class, alternation, negative lookahead `(?!...)` and the
word boundary `\b`.  Matching follows PCRE2 backtracking semantics: leftmost
match, alternatives tried left to right, greedy repetition backing off one
step at a time.  `QRegularExpression` is used without
`UseUnicodePropertiesOption`, so `\w` (and hence `\b`) covers exactly the
ASCII word characters `[A-Za-z0-9_]`. -/

/-- PCRE2's default (ASCII) word character, as used by `\b`. -/
def isWordChar (c : Char) : Bool :=
  ('a' ≤ c && c ≤ 'z') || ('A' ≤ c && c ≤ 'Z') || ('0' ≤ c && c ≤ '9') || c == '_'

/-- Whether position `i` of `s` holds a word character (out of range: no). -/
def isWordAt (s : List Char) (i : Nat) : Bool :=
  match s[i]? with
  | some c => isWordChar c
  | none => false

/-- `\b` holds at position `i` iff exactly one of the neighbouring positions
`i - 1`, `i` holds a word character. -/
def wordBoundary (s : List Char) (i : Nat) : Bool :=
  (if i = 0 then false else isWordAt s (i - 1)) != isWordAt s i

/-- The regex fragment language needed by the pattern catalog. -/
inductive Pat : Type where
  | one : (Char → Bool) → Pat
  | rep : (Char → Bool) → Nat → Option Nat → Pat
  | seq : Pat → Pat → Pat
  | alt : Pat → Pat → Pat
  | nla : Pat → Pat
  | wb : Pat

/-- Length of the maximal run of characters satisfying `p` at the head. -/
def takeRun (p : Char → Bool) : List Char → Nat
  | [] => 0
  | c :: t => if p c then takeRun p t + 1 else 0

/-- Greedy backtracking over a repetition count: try `j` characters first,
then `j - 1`, …, down to `minC`; `k` receives the position after the
repetition and reports the end of the overall match. -/
def tryCounts (k : Nat → Option Nat) (i minC : Nat) : Nat → Option Nat
  | 0 => if minC = 0 then k i else none
  | j + 1 =>
    if j + 1 < minC then none
    else
      match k (i + (j + 1)) with
      | some r => some r
      | none => tryCounts k i minC j

/-- PCRE2-style matcher in continuation style: `matchPat p s i k` tries to
match `p` in `s` starting at position `i`; every candidate end position is
passed to `k` in priority order and the first success is returned. -/
def matchPat : Pat → List Char → Nat → (Nat → Option Nat) → Option Nat
  | .one p, s, i, k =>
    match s[i]? with
    | some c => if p c then k (i + 1) else none
    | none => none
  | .rep p minC maxC, s, i, k =>
    let m0 := takeRun p (s.drop i)
    let m := match maxC with | none => m0 | some mx => min m0 mx
    tryCounts k i minC m
  | .seq p q, s, i, k => matchPat p s i (fun j => matchPat q s j k)
  | .alt p q, s, i, k =>
    match matchPat p s i k with
    | some r => some r
    | none => matchPat q s i k
  | .nla p, s, i, k =>
    match matchPat p s i some with
    | some _ => none
    | none => k i
  | .wb, s, i, k => if wordBoundary s i then k i else none

/-- A whole-pattern match attempt at position `i`: the end position of the
leftmost-biased match, if any. -/
def matchAt (p : Pat) (s : List Char) (i : Nat) : Option Nat :=
  matchPat p s i some

/-- Iteration worker for global matching; `fuel` bounds the number of scan
steps (each step advances the position, so `s.length + 1` suffices). -/
def globalMatchesAux (p : Pat) (s : List Char) : Nat → Nat → List (Nat × Nat)
  | 0, _ => []
  | fuel + 1, i =>
    if i > s.length then []
    else
      match matchAt p s i with
      | none => globalMatchesAux p s fuel (i + 1)
      | some e =>
        if e > i then (i, e - i) :: globalMatchesAux p s fuel e
        else (i, 0) :: globalMatchesAux p s fuel (i + 1)

/-- `pattern.globalMatch(text)`: the list of `(capturedStart, capturedLength)`
of every leftmost non-overlapping match, scanning left to right. -/
def globalMatches (p : Pat) (s : List Char) : List (Nat × Nat) :=
  globalMatchesAux p s (s.length + 1) 0

/-! ## Rules and the classification engine -/

/-- A `QTextCharFormat` as the highlighter builds it: foreground color and
bold or not. -/
structure Fmt : Type where
  color : String
  bold : Bool
deriving DecidableEq

/-- A `HighlightingRule`: compiled pattern plus format. -/
structure Rule : Type where
  pat : Pat
  fmt : Fmt

/-- `HighlightingRule(pattern, color)` with the default `bold=True`. -/
def mkRule (p : Pat) (c : String) : Rule := ⟨p, ⟨c, true⟩⟩

/-- The per-character format map of the current block; `none` is the editor
default (no rule touched the character). -/
abbrev FmtMap : Type := Nat → Option Fmt

/-- `self.setFormat(start, length, format)`: assign `f` to the character range
`[start, start + len)`, replacing whatever was there. -/
def setFormat (st : FmtMap) (start len : Nat) (f : Fmt) : FmtMap :=
  fun i => if start ≤ i ∧ i < start + len then some f else st i

/-- The inner loop of `highlightBlock`: `setFormat` once per global match of
the rule's pattern. -/
def applyRule (text : List Char) (st : FmtMap) (r : Rule) : FmtMap :=
  (globalMatches r.pat text).foldl (fun acc m => setFormat acc m.1 m.2 r.fmt) st

/-- `MollangSyntaxHighlighter.highlightBlock(text)`: apply every rule in
order; matches of later rules overwrite the formats set by earlier ones. -/
def highlightBlock (rules : List Rule) (text : List Char) : FmtMap :=
  rules.foldl (applyRule text) (fun _ => none)

/-! ## The pattern catalog (`MollangKeywords.get_complex_patterns`,
`get_variable_patterns`, and `MollangHighlightingRules`) -/

/-- A single literal character. -/
def litP (c : Char) : Pat := .one (fun x => x == c)

/-- The empty pattern (matches zero characters). -/
def epsP : Pat := .rep (fun _ => false) 0 (some 0)

/-- A literal string (the source's escaped literals, e.g. `은\?행`). -/
def litS (w : String) : Pat := (w.toList.map litP).foldr .seq epsP

/-- A character class `[...]` over the given characters. -/
def clsP (cs : String) : Pat := .one (fun x => cs.toList.contains x)

/-- `오+` style repetition of one character, one or more times. -/
def plusC (c : Char) : Pat := .rep (fun x => x == c) 1 none

/-- `모오+올` — the open-ended variable family ending in `올`. -/
def varOl : Pat := .seq (litP '모') (.seq (plusC '오') (litS "올"))

/-- `모오+울` — the open-ended variable family ending in `울`. -/
def varUl : Pat := .seq (litP '모') (.seq (plusC '오') (litS "울"))

/-- `(?:몰|모오+올|모오+울)` — the variable alternation used by the composite
patterns (alternatives in source order). -/
def varAlt : Pat := .alt (litS "몰") (.alt varOl varUl)

/-- `f'\\b{re.escape(word)}\\b'` — a whole-token literal rule pattern. -/
def wordPat (w : String) : Pat := .seq .wb (.seq (litS w) .wb)

/-- `(?:몰|모오+올|모오+울)~(?:몰|모오+올|모오+울)루\?` — string input. -/
def stringInputPat : Pat :=
  .seq varAlt (.seq (litP '~') (.seq varAlt (.seq (litP '루') (litP '?'))))

/-- `(?:몰|모오+올|모오+울)~(?:몰|모오+올|모오+울)루(?!\?)` — string output. -/
def stringOutputPat : Pat :=
  .seq varAlt (.seq (litP '~') (.seq varAlt (.seq (litP '루') (.nla (litP '?')))))

/-- `&(?:몰|모오+올|모오+울)~(?:몰|모오+올|모오+울)` — heap length. -/
def heapLengthPat : Pat := .seq (litP '&') (.seq varAlt (.seq (litP '~') varAlt))

/-- `(?:몰|모오+올|모오+울)[\*~=](?:몰|모오+올|모오+울)` — heap access. -/
def heapAccessPat : Pat := .seq varAlt (.seq (clsP "*~=") varAlt)

/-- `[\?\!\.\,]+루!` — float formatting. -/
def floatFormatPat : Pat := .seq (.rep (fun x => "?!.,".toList.contains x) 1 none) (litS "루!")

/-- `create_string_io_rules()` (priority 1). -/
def stringIoRules : List Rule :=
  [mkRule stringInputPat colorStringIo, mkRule stringOutputPat colorStringIo]

/-- `create_heap_memory_rules()` (priority 2). -/
def heapMemoryRules : List Rule :=
  [mkRule heapLengthPat colorHeapMemory, mkRule heapAccessPat colorHeapMemory]

/-- `create_float_format_rules()` (priority 3). -/
def floatFormatRules : List Rule := [mkRule floatFormatPat colorExitFormat]

/-- `create_complex_keyword_rules()` (priority 4): the `complex_keywords`
patterns, all literal. -/
def complexKeywordRules : List Rule :=
  ["은?행", "털!자", "돌!자", "짓!자", "가!자", "가자!", "루?", "루!"].map
    (fun w => mkRule (litS w) colorKeywordComplex)

/-- `create_operator_rules()` (priority 5): the `multi_operators` patterns
(`\.{4,}`, `\.{3}`, `\.{2}`, `\?{2,}`, `!{2,}`) followed by the
`single_operators` (`\?`, `!`, `\.`, `\*`, `~`, `=`, `&`). -/
def operatorRules : List Rule :=
  [ mkRule (.rep (fun x => x == '.') 4 none) colorOperatorMulti
  , mkRule (.rep (fun x => x == '.') 3 (some 3)) colorOperatorMulti
  , mkRule (.rep (fun x => x == '.') 2 (some 2)) colorOperatorMulti
  , mkRule (.rep (fun x => x == '?') 2 none) colorOperatorMulti
  , mkRule (.rep (fun x => x == '!') 2 none) colorOperatorMulti
  , mkRule (litP '?') colorOperatorSingle
  , mkRule (litP '!') colorOperatorSingle
  , mkRule (litP '.') colorOperatorSingle
  , mkRule (litP '*') colorOperatorSingle
  , mkRule (litP '~') colorOperatorSingle
  , mkRule (litP '=') colorOperatorSingle
  , mkRule (litP '&') colorOperatorSingle ]

/-- `create_function_rules()` (priority 6): `\b`-anchored function names. -/
def functionRules : List Rule :=
  ["뭵뤩", "뭵뤡", "말랑", "머리", "무릎", "망령", "매립", "무리", "밀랍"].map
    (fun w => mkRule (wordPat w) colorFunctionName)

/-- `create_variable_rules()` (priority 7): `\b몰\b`, `\b모오+올\b`,
`\b모오+울\b`. -/
def variableRules : List Rule :=
  [ mkRule (.seq .wb (.seq (litS "몰") .wb)) colorVariable
  , mkRule (.seq .wb (.seq varOl .wb)) colorVariable
  , mkRule (.seq .wb (.seq varUl .wb)) colorVariable ]

/-- `create_simple_keyword_rules()` (priority 8): `\b루\b`, `\b아\b`, and the
exit token `0ㅅ0`. -/
def simpleKeywordRules : List Rule :=
  [ mkRule (wordPat "루") colorKeywordSimple
  , mkRule (wordPat "아") colorKeywordSimple
  , mkRule (litS "0ㅅ0") colorExitFormat ]

/-- `create_punctuation_rules()` (priority 9): `[(),]`, not bold. -/
def punctuationRules : List Rule := [⟨clsP "(),", ⟨colorPunctuation, false⟩⟩]

/-- The built-in part of `_setup_highlighting_rules`, priorities 1–9 in
source order. -/
def builtinRules : List Rule :=
  stringIoRules ++ heapMemoryRules ++ floatFormatRules ++ complexKeywordRules ++
    operatorRules ++ functionRules ++ variableRules ++ simpleKeywordRules ++
    punctuationRules

/-! ## Custom keyword rules (`_add_custom_keyword_rules`,
`_is_default_keyword`) -/

/-- `category_data.get('words', [])` as used on the static default keywords
(which are always dicts whose `'words'` is a list). -/
def getWordsOf (data : PyValue) : List PyValue :=
  match data with
  | .dict d =>
    match PyValue.lookupKey d "words" with
    | some (.list ws) => ws
    | _ => []
  | _ => []

/-- `MollangSyntaxHighlighter._is_default_keyword(word)`: whether the word
occurs in the `'words'` of ANY built-in default category. -/
def isDefaultKeyword (word : PyValue) : Bool :=
  defaultKeywordEntries.any (fun e => PyValue.memV word (getWordsOf e.2))

/-- `data.get('words', [])` for a registry category: `some []` when the key is
absent, the list when it is list-valued; iterating a non-list `'words'`
(unreachable for validated registries) and calling `.get` on a non-dict
(a Python `AttributeError`) are out of the model (`none`). -/
def catWordsOf (data : PyValue) : Option (List PyValue) :=
  match data with
  | .dict d =>
    match PyValue.lookupKey d "words" with
    | none => some []
    | some (.list ws) => some ws
    | some _ => none
  | _ => none

/-- `data.get('color', SyntaxColors.KEYWORD_SIMPLE)` (callers ensure `data`
is a dict). -/
def catColorOf (data : PyValue) : PyValue :=
  match data with
  | .dict d => (PyValue.lookupKey d "color").getD (.str colorKeywordSimple)
  | _ => .str colorKeywordSimple

/-- The loop of `_add_custom_keyword_rules`, collecting the `(word, color)`
pairs for which a custom rule is appended: every word of every category that
is not a default keyword. -/
def customKeywordPairs : List (String × PyValue) → Option (List (PyValue × PyValue))
  | [] => some []
  | (_, data) :: rest =>
    match catWordsOf data with
    | none => none
    | some ws =>
      match customKeywordPairs rest with
      | none => none
      | some tail =>
        some ((ws.filter (fun w => !(isDefaultKeyword w))).map
          (fun w => (w, catColorOf data)) ++ tail)

/-- The `(word, color)` pairs appended by
`_add_custom_keyword_rules` for the registry `kw`. -/
def addCustomKeywordWords (kw : PyValue) : Option (List (PyValue × PyValue)) :=
  match PyValue.dictEntries kw with
  | none => none
  | some entries => customKeywordPairs entries

/-- Build one custom rule `HighlightingRule(f'\\b{re.escape(word)}\\b',
color)`; word and color are strings in every reachable registry. -/
def mkCustomRule : PyValue × PyValue → Option Rule
  | (.str w, .str c) => some (mkRule (wordPat w) c)
  | _ => none

/-- `MollangSyntaxHighlighter._add_custom_keyword_rules()` as the list of
rules it appends. -/
def addCustomKeywordRules (kw : PyValue) : Option (List Rule) :=
  match addCustomKeywordWords kw with
  | none => none
  | some prs => prs.mapM mkCustomRule

/-- `MollangSyntaxHighlighter._setup_highlighting_rules()`: the built-in
rules of priorities 1–9, then the custom keyword rules for `kw`. -/
def setupHighlightingRules (kw : PyValue) : Option (List Rule) :=
  (addCustomKeywordRules kw).map (fun custom => builtinRules ++ custom)

/-- The rule list the highlighter compiles in `__init__` (default keywords:
every registry word is a default keyword, so no custom rule is appended). -/
def defaultRules : List Rule := builtinRules

/-! ## Derived observations used by the claim statements -/

/-- Character `i` is inside one of the spans `ms`. -/
def coversMatch (ms : List (Nat × Nat)) (i : Nat) : Prop :=
  ∃ m ∈ ms, m.1 ≤ i ∧ i < m.1 + m.2

/-- Some global match of the rule's pattern on `text` covers character `i`. -/
def ruleCovers (r : Rule) (text : List Char) (i : Nat) : Prop :=
  coversMatch (globalMatches r.pat text) i

/-- All keys of a dict entry list are distinct (true of every Python dict). -/
def keysUniq : List (String × PyValue) → Bool
  | [] => true
  | (a, _) :: t => !(t.any (fun e => e.1 == a)) && keysUniq t

/-- A category value has the reachable shape: a dict with a list-valued
`'words'` key. -/
def wfCat (e : String × PyValue) : Bool :=
  match e.2 with
  | .dict d =>
    match PyValue.lookupKey d "words" with
    | some (.list _) => true
    | _ => false
  | _ => false

/-- Well-formedness of a reachable registry mapping: a dict with unique keys
whose category values are dicts with a list-valued `'words'` key.  Every
state the manager can reach satisfies this (the initial default mapping, any
validated `set_keywords` payload, and the results of add/remove). -/
def wfKeywords (kw : PyValue) : Bool :=
  match kw with
  | .dict entries => keysUniq entries && entries.all wfCat
  | _ => false

/-- The registry contains the category. -/
def containsCategory (kw : PyValue) (cat : String) : Bool :=
  match PyValue.dictEntries kw with
  | some entries => (PyValue.lookupKey entries cat).isSome
  | none => false

/-- The word list of a category of the registry, when it has the reachable
shape. -/
def registryWords (kw : PyValue) (cat : String) : Option (List PyValue) :=
  match PyValue.dictEntries kw with
  | some entries =>
    match PyValue.lookupKey entries cat with
    | some (.dict d) =>
      match PyValue.lookupKey d "words" with
      | some (.list ws) => some ws
      | _ => none
    | _ => none
  | none => none

/-- `(category, word)` is present in the registry: the category exists and
its word list contains the word. -/
def pairExists (kw : PyValue) (cat : String) (word : PyValue) : Bool :=
  match registryWords kw cat with
  | some ws => PyValue.memV word ws
  | none => false

/-- The payload `{"X": {"words": ["a", "a"], "color": "#ZZZZZZ"}}` — duplicate
words and a color that is not hex-decodable. -/
def badColorPayload : PyValue :=
  .dict [("X", .dict [("words", .list [.str "a", .str "a"]), ("color", .str "#ZZZZZZ")])]

/-- A registry with one custom category whose word `루` is a built-in I/O
keyword but not a built-in function name. -/
def regCustomLu : PyValue :=
  .dict [("커스텀", .dict [("words", .list [.str "루"]), ("color", .str "#ABCDEF")])]

/-- A registry with one custom category holding the I/O keyword `루` and a
fresh word `몰랑몰랑`. -/
def regCustomTwo : PyValue :=
  .dict [("커스텀", .dict [("words", .list [.str "루", .str "몰랑몰랑"]),
    ("color", .str "#ABCDEF")])]

/-- A manager with the default keywords and one registered (non-raising)
observer. -/
def mgrOneCb : Manager :=
  { keywords := getDefaultKeywords, callbacks := [fun _ => Except.ok ()],
    notifyLog := [] }

/-- The result of removing `("종료_키워드", "0ㅅ0")` from `mgrOneCb`. -/
def remStep : Manager × Bool :=
  (removeKeyword mgrOneCb "종료_키워드" (.str "0ㅅ0")).getD (mgrOneCb, false)

/-- The result of then adding `("내분류", "몰몰")`. -/
def addStep : Manager × Bool :=
  (addKeyword remStep.1 "내분류" (.str "몰몰") (.str "#333333")).getD (mgrOneCb, false)

/-! # Theorems

## Engine lemmas: overlap resolution in `highlightBlock` -/

theorem setFormat_apply (st : FmtMap) (start len : Nat) (f : Fmt) (i : Nat) :
    setFormat st start len f i =
      if start ≤ i ∧ i < start + len then some f else st i := rfl

theorem foldSetFormat_not_covers (f : Fmt) (i : Nat) :
    ∀ (ms : List (Nat × Nat)) (st : FmtMap), ¬ coversMatch ms i →
      (ms.foldl (fun acc m => setFormat acc m.1 m.2 f) st) i = st i := by
  intro ms
  induction ms with
  | nil => intro st _; rfl
  | cons m t ih =>
    intro st h
    have hm : ¬ (m.1 ≤ i ∧ i < m.1 + m.2) := by
      intro hc
      exact h ⟨m, List.mem_cons_self m t, hc⟩
    have ht : ¬ coversMatch t i := by
      intro ⟨m2, hm2, hc2⟩
      exact h ⟨m2, List.mem_cons_of_mem m hm2, hc2⟩
    rw [List.foldl_cons, ih _ ht, setFormat_apply, if_neg hm]

theorem foldSetFormat_covers (f : Fmt) (i : Nat) :
    ∀ (ms : List (Nat × Nat)) (st : FmtMap), coversMatch ms i →
      (ms.foldl (fun acc m => setFormat acc m.1 m.2 f) st) i = some f := by
  intro ms
  induction ms with
  | nil => intro st h; exact absurd h (by intro ⟨m, hm, _⟩; cases hm)
  | cons m t ih =>
    intro st h
    by_cases ht : coversMatch t i
    · rw [List.foldl_cons, ih _ ht]
    · have hm : m.1 ≤ i ∧ i < m.1 + m.2 := by
        obtain ⟨m2, hm2, hc2⟩ := h
        rcases List.mem_cons.mp hm2 with h1 | h2
        · exact h1 ▸ hc2
        · exact absurd ⟨m2, h2, hc2⟩ ht
      rw [List.foldl_cons, foldSetFormat_not_covers f i t _ ht, setFormat_apply, if_pos hm]

theorem applyRule_covers (text : List Char) (st : FmtMap) (r : Rule) (i : Nat)
    (h : ruleCovers r text i) : applyRule text st r i = some r.fmt :=
  foldSetFormat_covers r.fmt i (globalMatches r.pat text) st h

theorem applyRule_not_covers (text : List Char) (st : FmtMap) (r : Rule) (i : Nat)
    (h : ¬ ruleCovers r text i) : applyRule text st r i = st i :=
  foldSetFormat_not_covers r.fmt i (globalMatches r.pat text) st h

theorem foldRules_not_covers (text : List Char) (i : Nat) :
    ∀ (rules : List Rule) (st : FmtMap), (∀ r ∈ rules, ¬ ruleCovers r text i) →
      (rules.foldl (applyRule text) st) i = st i := by
  intro rules
  induction rules with
  | nil => intro st _; rfl
  | cons r t ih =>
    intro st h
    rw [List.foldl_cons, ih _ (fun r2 h2 => h r2 (List.mem_cons_of_mem r h2)),
      applyRule_not_covers text st r i (h r (List.mem_cons_self r t))]

/-- C3: For every text unit and every rule list, whenever a match of a rule
that appears later in the ordered list covers a character already styled by
an earlier rule's match, the final per-character style of that character is
the later rule's style — formally: if rule `r` covers character `i` and no
rule after `r` in the list covers `i`, then `highlightBlock` assigns `i` the
style of `r`, regardless of what the earlier rules `pre` matched.  (Stated
for arbitrary rule lists, which include every list the rule compiler can
produce.) -/
theorem last_covering_rule_wins (pre post : List Rule) (r : Rule) (text : List Char)
    (i : Nat) (hr : ruleCovers r text i)
    (hpost : ∀ r2 ∈ post, ¬ ruleCovers r2 text i) :
    highlightBlock (pre ++ r :: post) text i = some r.fmt := by
  unfold highlightBlock
  rw [List.foldl_append, List.foldl_cons, foldRules_not_covers text i post _ hpost,
    applyRule_covers _ _ _ _ hr]

/-- Witness for C3 at a concrete input: on the text `"?!"`, with an earlier
rule matching `?` and a later rule matching `?` again (different style), the
later rule's style wins on character 0. -/
theorem last_covering_rule_wins_witness :
    ruleCovers (mkRule (litP '?') colorOperatorSingle) "?!".toList 0 ∧
    highlightBlock [mkRule (litP '?') colorKeywordComplex,
      mkRule (litP '?') colorOperatorSingle] "?!".toList 0 =
      some ⟨colorOperatorSingle, true⟩ := by
  have hcov : ruleCovers (mkRule (litP '?') colorOperatorSingle) "?!".toList 0 :=
    ⟨(0, 1), by decide⟩
  exact ⟨hcov,
    last_covering_rule_wins [mkRule (litP '?') colorKeywordComplex] []
      (mkRule (litP '?') colorOperatorSingle) "?!".toList 0 hcov
      (fun r2 h2 => by cases h2)⟩

/-! ## C1: classification of `"...."` -/

/-- C1 counterexample: with the rule list compiled from the default
keywords, character 0 of `"...."` ends up with the single-dot operator style
(`#FFC107`, the style of the `\.` rule), which is a different style from the
4-or-more-dots multi-operator one (`#FF9800`) — refuting the claim that all
four characters get the modulo style and none the single-dot style. -/
theorem dots_char0_single_cex :
    setupHighlightingRules getDefaultKeywords = some defaultRules ∧
    highlightBlock defaultRules "....".toList 0 = some ⟨colorOperatorSingle, true⟩ ∧
    colorOperatorSingle ≠ colorOperatorMulti :=
  ⟨rfl, rfl, by decide⟩

/-- C1 amended: the `\.{4,}` rule does match the whole of `"...."` as one
span of length 4 (so the longest-run-first ordering works at the matching
phase and no division+leftover split survives from the 3-dot/2-dot rules,
which carry the same multi-operator style anyway), but because the
single-dot rule `\.` comes later in the compiled list and `highlightBlock`
lets later matches overwrite earlier styles, all four characters finally
carry the single-dot operator style. -/
theorem dots_final_styles :
    setupHighlightingRules getDefaultKeywords = some defaultRules ∧
    globalMatches (.rep (fun x => x == '.') 4 none) "....".toList = [(0, 4)] ∧
    (List.range 4).map (highlightBlock defaultRules "....".toList) =
      List.replicate 4 (some ⟨colorOperatorSingle, true⟩) :=
  ⟨rfl, rfl, rfl⟩

/-! ## C2: classification of `"몰~몰루?"` -/

/-- C2 counterexample: with the rule list compiled from the default
keywords, character 2 of `"몰~몰루?"` ends up with the heap-memory style
(`#E91E63`) and characters 1 and 4 with the single-operator style
(`#FFC107`); no character keeps the string-input style (`#00E676`) —
refuting the claim that the whole span is styled as string input. -/
theorem stringInput_char2_heap_cex :
    setupHighlightingRules getDefaultKeywords = some defaultRules ∧
    highlightBlock defaultRules "몰~몰루?".toList 2 = some ⟨colorHeapMemory, true⟩ ∧
    colorHeapMemory ≠ colorStringIo :=
  ⟨rfl, rfl, by decide⟩

/-- C2 amended: the string-input rule does match the whole 5-character span
`몰~몰루?` as one match (so the matching phase sees it as string input, and
the string-output rule's negative lookahead correctly rejects it), but later
rules overwrite every character: the heap-access rule restyles `몰~몰`
(characters 0–2), the complex-keyword rule `루\?` restyles characters 3–4,
and the single-operator rules `~` and `\?` restyle characters 1 and 4, so
the final styles are heap-memory, single-operator, heap-memory,
complex-keyword, single-operator, and no character keeps the string-input
style. -/
theorem stringInput_final_styles :
    setupHighlightingRules getDefaultKeywords = some defaultRules ∧
    globalMatches stringInputPat "몰~몰루?".toList = [(0, 5)] ∧
    globalMatches stringOutputPat "몰~몰루?".toList = [] ∧
    (List.range 5).map (highlightBlock defaultRules "몰~몰루?".toList) =
      [some ⟨colorHeapMemory, true⟩, some ⟨colorOperatorSingle, true⟩,
       some ⟨colorHeapMemory, true⟩, some ⟨colorKeywordComplex, true⟩,
       some ⟨colorOperatorSingle, true⟩] :=
  ⟨rfl, rfl, rfl, rfl⟩

/-! ## C4: `set` with the `#ZZZZZZ` payload -/

/-- C4 counterexample: the payload `{"X": {"words": ["a","a"], "color":
"#ZZZZZZ"}}` passes `validate_keyword_data` (which only checks that the
value is a dict of dicts with a list-valued `words` and a string-valued
`color`), so `set_keywords` on the default registry returns `True` and
replaces the live mapping with the payload — which differs from the previous
mapping — refuting the claim that the call fails validation and leaves the
registry unchanged. -/
theorem setKeywords_badColor_accepted_cex :
    validateKeywordData badColorPayload = true ∧
    (setKeywords initManager badColorPayload).2 = true ∧
    (setKeywords initManager badColorPayload).1.keywords = badColorPayload ∧
    getKeywords initManager ≠ badColorPayload := by
  refine ⟨by decide, rfl, rfl, ?_⟩
  intro h
  exact absurd (congrArg (fun v => (PyValue.dictEntries v).map List.length) h) (by decide)

/-- C4 amended: for every current registry state, `set_keywords` with the
payload `{"X": {"words": ["a","a"], "color": "#ZZZZZZ"}}` PASSES validation
— `validate_keyword_data` checks only the structural shape (dict of dicts
with a list `words` and a string `color`), not hex-decodability of the color
nor duplicate words — so the call succeeds, replaces the whole registry with
the payload, and fires one change notification. -/
theorem setKeywords_badColor_accepted (m : Manager) :
    validateKeywordData badColorPayload = true ∧
    setKeywords m badColorPayload =
      (notifyM { m with keywords := badColorPayload }, true) := by
  constructor
  · decide
  · show (if validateKeywordData badColorPayload then
        (notifyM { m with keywords := badColorPayload }, true) else (m, false)) = _
    rw [if_pos (by decide)]

/-! ## C9: `set(get())` round-trip -/

/-- C9: for every registry state accepted by the validation predicate,
`set_keywords(get_keywords())` succeeds and afterwards the registry mapping
equals the mapping before the call (the round-trip is a no-op on the
mapping; it does fire a change notification). -/
theorem set_get_roundtrip (m : Manager) (h : validateKeywordData m.keywords = true) :
    (setKeywords m (getKeywords m)).2 = true ∧
    (setKeywords m (getKeywords m)).1.keywords = m.keywords := by
  unfold setKeywords getKeywords
  rw [if_pos h]
  exact ⟨rfl, rfl⟩

/-- Witness for C9 at the initial manager: the default mapping is valid and
the round-trip preserves it. -/
theorem set_get_roundtrip_witness :
    validateKeywordData initManager.keywords = true ∧
    (setKeywords initManager (getKeywords initManager)).2 = true ∧
    (setKeywords initManager (getKeywords initManager)).1.keywords =
      initManager.keywords :=
  ⟨by decide, set_get_roundtrip initManager (by decide)⟩

/-! ## C8: observer isolation in `_notify_change` -/

theorem notifyChange_eq_map (cbs : List Callback) (kw : PyValue) :
    notifyChange cbs kw = cbs.map (fun cb => cb kw) := by
  induction cbs with
  | nil => rfl
  | cons cb rest ih =>
    cases h : cb kw with
    | ok u => simp [notifyChange, h, ih]
    | error e => simp [notifyChange, h, ih]

theorem notifyChange_length (cbs : List Callback) (kw : PyValue) :
    (notifyChange cbs kw).length = cbs.length := by
  rw [notifyChange_eq_map, List.length_map]

/-- C8: even when some registered observer raises (its outcome on the new
mapping is an `error`), `_notify_change` still invokes every observer with
the new mapping: the delivery record is exactly the list of each callback's
own outcome on the mapping, one entry per registered callback, in order; the
raising observer's error is caught and recorded, and nothing propagates out
of the notification loop.  Every successful mutation (`set`, `add`,
`remove`) delivers its notification through this loop (`notifyM`). -/
theorem observers_isolated (cbs : List Callback) (kw : PyValue) (e : String)
    (_hbad : Except.error e ∈ cbs.map (fun cb => cb kw)) :
    notifyChange cbs kw = cbs.map (fun cb => cb kw) ∧
    (notifyChange cbs kw).length = cbs.length :=
  ⟨notifyChange_eq_map cbs kw, notifyChange_length cbs kw⟩

/-- Witness for C8: with a first observer that raises and a second that
succeeds, both outcomes are recorded — the second observer is still
invoked. -/
theorem observers_isolated_witness :
    notifyChange [fun _ => Except.error "boom", fun _ => Except.ok ()]
        getDefaultKeywords =
      [Except.error "boom", Except.ok ()] ∧
    (notifyChange [fun _ => Except.error "boom", fun _ => Except.ok ()]
        getDefaultKeywords).length = 2 :=
  observers_isolated [fun _ => Except.error "boom", fun _ => Except.ok ()]
    getDefaultKeywords "boom" (List.mem_cons_self _ _)

/-! ## C5: duplicate suppression in the rule compiler -/

/-- C5 counterexample: for a registry whose only word is `루` — a built-in
I/O keyword (`입출력_키워드`) that is NOT among the built-in function names
(`함수명`) — the rule compiler appends NO custom rule at all, because
`_is_default_keyword` checks every built-in category, not only the function
names; this refutes the claimed "custom rule appended iff the word is not a
built-in function name". -/
theorem custom_rule_lu_suppressed_cex :
    addCustomKeywordWords regCustomLu = some [] ∧
    (PyValue.lookupKey defaultKeywordEntries "함수명").map
      (fun d => PyValue.memV (.str "루") (getWordsOf d)) = some false ∧
    isDefaultKeyword (.str "루") = true :=
  ⟨rfl, by decide, by decide⟩

/-- C5 amended: the rule compiler appends a custom whole-token rule for a
registry word if and only if the literal word is not among the words of ANY
built-in default category (function names, control, jump, I/O and exit
keywords alike) — formally, whenever the compiler loop succeeds on a
registry's entries, the pair `(w, c)` is among the appended `(word, color)`
pairs iff `w` occurs in the word list of some category of the registry with
color `c` and `w` is not a default keyword. -/
theorem custom_rule_iff (w c : PyValue) :
    ∀ (entries : List (String × PyValue)) (prs : List (PyValue × PyValue)),
      customKeywordPairs entries = some prs →
      ((w, c) ∈ prs ↔
        ∃ cat data ws, (cat, data) ∈ entries ∧ catWordsOf data = some ws ∧
          w ∈ ws ∧ c = catColorOf data ∧ isDefaultKeyword w = false) := by
  intro entries
  induction entries with
  | nil =>
    intro prs h
    simp only [customKeywordPairs, Option.some.injEq] at h
    subst h
    simp
  | cons e t ih =>
    intro prs h
    obtain ⟨cat0, data0⟩ := e
    cases hws : catWordsOf data0 with
    | none => rw [customKeywordPairs, hws] at h; cases h
    | some ws0 =>
      cases htl : customKeywordPairs t with
      | none => rw [customKeywordPairs, hws, htl] at h; cases h
      | some tail =>
        rw [customKeywordPairs, hws, htl] at h
        injection h with h
        subst h
        constructor
        · intro hm
          rcases List.mem_append.mp hm with hmap | htail
          · obtain ⟨w1, hw1, heq⟩ := List.mem_map.mp hmap
            obtain ⟨hw1mem, hfil⟩ := List.mem_filter.mp hw1
            injection heq with h1 h2
            subst h1
            subst h2
            exact ⟨cat0, data0, ws0, List.mem_cons_self _ _, hws, hw1mem, rfl,
              by simpa using hfil⟩
          · obtain ⟨cat, data, ws, hmem, hws2, hwm, hc, hdef⟩ := (ih tail htl).mp htail
            exact ⟨cat, data, ws, List.mem_cons_of_mem _ hmem, hws2, hwm, hc, hdef⟩
        · rintro ⟨cat, data, ws, hmem, hws2, hwm, hc, hdef⟩
          rcases List.mem_cons.mp hmem with heq | hmemt
          · injection heq with hcat hdata
            subst hdata
            rw [hws] at hws2
            injection hws2 with hws3
            subst hws3
            refine List.mem_append.mpr (Or.inl (List.mem_map.mpr ⟨w, ?_, ?_⟩))
            · exact List.mem_filter.mpr ⟨hwm, by simpa using hdef⟩
            · rw [hc]
          · exact List.mem_append.mpr
              (Or.inr ((ih tail htl).mpr ⟨cat, data, ws, hmemt, hws2, hwm, hc, hdef⟩))

/-- Witness for C5's amended statement: on a registry holding the built-in
I/O keyword `루` and the fresh word `몰랑몰랑`, exactly the fresh word gets a
custom rule — `몰랑몰랑` is among the appended pairs and `루` is not. -/
theorem custom_rule_iff_witness :
    customKeywordPairs
        [("커스텀", .dict [("words", .list [.str "루", .str "몰랑몰랑"]),
          ("color", .str "#ABCDEF")])] =
      some [(.str "몰랑몰랑", .str "#ABCDEF")] ∧
    ((PyValue.str "몰랑몰랑", PyValue.str "#ABCDEF") ∈
      ([(.str "몰랑몰랑", .str "#ABCDEF")] : List (PyValue × PyValue))) := by
  refine ⟨rfl, ?_⟩
  refine (custom_rule_iff (.str "몰랑몰랑") (.str "#ABCDEF")
    [("커스텀", .dict [("words", .list [.str "루", .str "몰랑몰랑"]),
      ("color", .str "#ABCDEF")])]
    [(.str "몰랑몰랑", .str "#ABCDEF")] rfl).mpr ?_
  exact ⟨"커스텀", .dict [("words", .list [.str "루", .str "몰랑몰랑"]),
    ("color", .str "#ABCDEF")],
    [.str "루", .str "몰랑몰랑"], List.mem_cons_self _ _, rfl,
    List.mem_cons_of_mem _ (List.mem_cons_self _ _), rfl, by decide⟩

/-! ## Dict lemmas for the registry operations -/

theorem lookupKey_mem :
    ∀ (l : List (String × PyValue)) (k : String) (v : PyValue),
      PyValue.lookupKey l k = some v → (k, v) ∈ l := by
  intro l
  induction l with
  | nil => intro k v h; cases h
  | cons e t ih =>
    intro k v h
    obtain ⟨a, w⟩ := e
    by_cases ha : a = k
    · subst ha
      rw [PyValue.lookupKey, if_pos rfl] at h
      injection h with h
      subst h
      exact List.mem_cons_self _ _
    · rw [PyValue.lookupKey, if_neg ha] at h
      exact List.mem_cons_of_mem _ (ih k v h)

theorem lookupKey_setKey_self :
    ∀ (l : List (String × PyValue)) (k : String) (v : PyValue),
      PyValue.lookupKey (PyValue.setKey l k v) k = some v := by
  intro l
  induction l with
  | nil => intro k v; simp [PyValue.setKey, PyValue.lookupKey]
  | cons e t ih =>
    intro k v
    obtain ⟨a, w⟩ := e
    by_cases ha : a = k
    · subst ha
      rw [PyValue.setKey, if_pos rfl, PyValue.lookupKey, if_pos rfl]
    · rw [PyValue.setKey, if_neg ha, PyValue.lookupKey, if_neg ha]
      exact ih k v

theorem lookupKey_none_of_noKey :
    ∀ (l : List (String × PyValue)) (k : String),
      l.any (fun e => e.1 == k) = false → PyValue.lookupKey l k = none := by
  intro l
  induction l with
  | nil => intro k _; rfl
  | cons e t ih =>
    intro k h
    obtain ⟨a, w⟩ := e
    rw [List.any_cons, Bool.or_eq_false_iff] at h
    have ha : ¬ a = k := by
      intro hak
      rw [hak] at h
      simp at h
    rw [PyValue.lookupKey, if_neg ha]
    exact ih k h.2

theorem lookupKey_delKey_self :
    ∀ (l : List (String × PyValue)) (k : String), keysUniq l = true →
      PyValue.lookupKey (PyValue.delKey l k) k = none := by
  intro l
  induction l with
  | nil => intro k _; rfl
  | cons e t ih =>
    intro k hu
    obtain ⟨a, w⟩ := e
    rw [keysUniq, Bool.and_eq_true] at hu
    by_cases ha : a = k
    · subst ha
      rw [PyValue.delKey, if_pos rfl]
      apply lookupKey_none_of_noKey
      have h1 := hu.1
      rwa [Bool.not_eq_true'] at h1
    · rw [PyValue.delKey, if_neg ha, PyValue.lookupKey, if_neg ha]
      exact ih k hu.2

theorem wfCat_shape (cat : String) (data : PyValue) (h : wfCat (cat, data) = true) :
    ∃ d ws, data = PyValue.dict d ∧
      PyValue.lookupKey d "words" = some (.list ws) := by
  cases data with
  | dict d =>
    cases hw : PyValue.lookupKey d "words" with
    | none => simp [wfCat, hw] at h
    | some wv =>
      cases wv with
      | list ws => exact ⟨d, ws, rfl, hw⟩
      | str s => simp [wfCat, hw] at h
      | dict dd => simp [wfCat, hw] at h
  | str s => cases h
  | list l => cases h

/-- A registry state is a dict whenever it is well-formed. -/
theorem wf_entries (kw : PyValue) (h : wfKeywords kw = true) :
    ∃ entries, kw = PyValue.dict entries ∧ keysUniq entries = true ∧
      entries.all wfCat = true := by
  cases kw with
  | dict entries =>
    rw [wfKeywords, Bool.and_eq_true] at h
    exact ⟨entries, rfl, h.1, h.2⟩
  | str s => cases h
  | list l => cases h

/-- `remove_keyword` on a well-formed state whose `(category, word)` pair is
absent is a no-op returning `False`. -/
theorem removeKeyword_noop (m : Manager) (cat : String) (word : PyValue)
    (hwf : wfKeywords m.keywords = true)
    (habs : pairExists m.keywords cat word = false) :
    removeKeyword m cat word = some (m, false) := by
  obtain ⟨entries, hk, _, hall⟩ := wf_entries m.keywords hwf
  rw [removeKeyword, hk]
  show (match PyValue.lookupKey entries cat with
    | none => some (m, false)
    | some data =>
      match PyValue.dictEntries data with
      | none => none
      | some dentries =>
        match PyValue.lookupKey dentries "words" with
        | some (.list ws) =>
          if PyValue.memV word ws then
            let ws1 := PyValue.eraseOneV word ws
            let kw1 :=
              if ws1.isEmpty then PyValue.delKey entries cat
              else PyValue.setKey entries cat
                (.dict (PyValue.setKey dentries "words" (.list ws1)))
            some (notifyM { m with keywords := .dict kw1 }, true)
          else
            some (m, false)
        | _ => none) = some (m, false)
  cases hl : PyValue.lookupKey entries cat with
  | none => rfl
  | some data =>
    have hcat : wfCat (cat, data) = true :=
      List.all_eq_true.mp hall _ (lookupKey_mem entries cat data hl)
    obtain ⟨d, ws, hd, hwords⟩ := wfCat_shape cat data hcat
    subst hd
    have hmem : PyValue.memV word ws = false := by
      simp only [pairExists, registryWords, hk, PyValue.dictEntries, hl, hwords] at habs
      exact habs
    simp only [PyValue.dictEntries, hwords, hmem]
    rfl

/-! ## C6: `update` with a nonexistent old pair -/

/-- C6 counterexample: on the default registry, `update_keyword` with the
nonexistent old pair `("없는분류", "없는단어")` is NOT a no-op failure: the
removal step silently fails but the add step still runs, so the call returns
`True` and the registry now contains the new pair `("새분류", "새단어")`,
which it did not contain before. -/
theorem update_missing_old_cex :
    (updateKeyword initManager "없는분류" (.str "없는단어") "새분류" (.str "새단어")
        (.str "#111111")).map
      (fun r => (r.2, pairExists r.1.keywords "새분류" (.str "새단어"))) =
      some (true, true) ∧
    pairExists initManager.keywords "없는분류" (.str "없는단어") = false ∧
    pairExists initManager.keywords "새분류" (.str "새단어") = false :=
  ⟨rfl, by decide, by decide⟩

/-- C6 amended: when the old `(category, word)` pair does not exist in a
well-formed registry, the removal step of `update_keyword` is a silent no-op
— but the add step still runs: the whole call behaves exactly like
`add_keyword(new_category, new_word, new_color)` (so it returns a failure
with the state unchanged only when additionally the new word is already
present in the new category). -/
theorem update_missing_old_is_add (m : Manager) (oldCategory : String)
    (oldWord : PyValue) (newCategory : String) (newWord newColor : PyValue)
    (hwf : wfKeywords m.keywords = true)
    (habs : pairExists m.keywords oldCategory oldWord = false) :
    updateKeyword m oldCategory oldWord newCategory newWord newColor =
      addKeyword m newCategory newWord newColor := by
  rw [updateKeyword, removeKeyword_noop m oldCategory oldWord hwf habs]

/-- Witness for C6's amended statement on the default registry: updating
from a nonexistent old pair equals plainly adding the new keyword. -/
theorem update_missing_old_is_add_witness :
    wfKeywords initManager.keywords = true ∧
    pairExists initManager.keywords "없는분류" (.str "없는단어") = false ∧
    updateKeyword initManager "없는분류" (.str "없는단어") "새분류" (.str "새단어")
        (.str "#222222") =
      addKeyword initManager "새분류" (.str "새단어") (.str "#222222") :=
  ⟨by decide, by decide,
    update_missing_old_is_add initManager "없는분류" (.str "없는단어") "새분류"
      (.str "새단어") (.str "#222222") (by decide) (by decide)⟩

/-! ## C7: the `remove` contract -/

/-- C7: on every well-formed registry state, `remove_keyword(category, word)`
never raises, and: if the category or the word does not exist it returns the
no-op failure signal `False` with the state unchanged; otherwise it returns
`True`, fires exactly one change notification (delivered to the registered
callbacks with the new mapping), removes the first occurrence of the word,
and — when that word was the category's last — deletes the whole category,
so that the mapping afterwards does not contain the category key. -/
theorem remove_spec (m : Manager) (cat : String) (word : PyValue)
    (hwf : wfKeywords m.keywords = true) :
    ∃ r, removeKeyword m cat word = some r ∧
      (pairExists m.keywords cat word = false → r = (m, false)) ∧
      (pairExists m.keywords cat word = true →
        r.2 = true ∧
        r.1.callbacks = m.callbacks ∧
        r.1.notifyLog = m.notifyLog ++
          [(notifyChange m.callbacks r.1.keywords, r.1.keywords)] ∧
        ∃ ws, registryWords m.keywords cat = some ws ∧
          PyValue.memV word ws = true ∧
          (PyValue.eraseOneV word ws = [] →
            containsCategory r.1.keywords cat = false) ∧
          (PyValue.eraseOneV word ws ≠ [] →
            registryWords r.1.keywords cat = some (PyValue.eraseOneV word ws))) := by
  obtain ⟨entries, hk, hu, hall⟩ := wf_entries m.keywords hwf
  cases hp : pairExists m.keywords cat word with
  | false =>
    exact ⟨(m, false), removeKeyword_noop m cat word hwf hp, fun _ => rfl,
      fun ht => Bool.noConfusion ht⟩
  | true =>
    cases hl : PyValue.lookupKey entries cat with
    | none =>
      rw [pairExists, registryWords, hk] at hp
      simp only [PyValue.dictEntries, hl] at hp
      exact Bool.noConfusion hp
    | some data =>
      have hcat : wfCat (cat, data) = true :=
        List.all_eq_true.mp hall _ (lookupKey_mem entries cat data hl)
      obtain ⟨d, ws, hd, hwords⟩ := wfCat_shape cat data hcat
      subst hd
      have hmem : PyValue.memV word ws = true := by
        rw [pairExists, registryWords, hk] at hp
        simp only [PyValue.dictEntries, hl, hwords] at hp
        exact hp
      refine ⟨(notifyM { m with keywords := PyValue.dict (if
          (PyValue.eraseOneV word ws).isEmpty then PyValue.delKey entries cat
          else PyValue.setKey entries cat
            (PyValue.dict (PyValue.setKey d "words"
              (PyValue.list (PyValue.eraseOneV word ws))))) }, true), ?_, ?_, ?_⟩
      · rw [removeKeyword, hk]
        simp only [PyValue.dictEntries, hl, hwords, hmem]
        rfl
      · exact fun hfalse => Bool.noConfusion hfalse
      · intro _
        refine ⟨rfl, rfl, rfl, ws, ?_, hmem, ?_, ?_⟩
        · rw [registryWords, hk]
          simp only [PyValue.dictEntries, hl, hwords]
        · intro h1
          simp only [containsCategory, h1, List.isEmpty_nil, if_true, notifyM,
            PyValue.dictEntries, lookupKey_delKey_self entries cat hu,
            Option.isSome_none]
        · intro hne
          cases h1 : PyValue.eraseOneV word ws with
          | nil => exact absurd h1 hne
          | cons a t =>
            simp only [containsCategory, registryWords, h1, List.isEmpty_cons,
              if_false, notifyM, PyValue.dictEntries, lookupKey_setKey_self,
              Bool.false_eq_true]

/-- Witness for C7 on the default registry: removing `0ㅅ0` — the only word
of `종료_키워드` — succeeds and deletes the whole category. -/
theorem remove_spec_witness :
    wfKeywords initManager.keywords = true ∧
    pairExists initManager.keywords "종료_키워드" (.str "0ㅅ0") = true ∧
    ∃ r, removeKeyword initManager "종료_키워드" (.str "0ㅅ0") = some r ∧
      r.2 = true ∧ containsCategory r.1.keywords "종료_키워드" = false := by
  refine ⟨by decide, by decide, ?_⟩
  obtain ⟨r, hr, _, hp⟩ :=
    remove_spec initManager "종료_키워드" (.str "0ㅅ0") (by decide)
  obtain ⟨h2, _, _, ws, hws, _, hdel, _⟩ := hp (by decide)
  refine ⟨r, hr, h2, ?_⟩
  have hcomp : registryWords initManager.keywords "종료_키워드" =
      some [PyValue.str "0ㅅ0"] := rfl
  rw [hcomp] at hws
  injection hws with hws
  subst hws
  exact hdel rfl

/-! ## C10: `update` fires two notifications -/

/-- A successful `remove_keyword` returns the manager produced by one
`_notify_change` on the updated mapping. -/
theorem removeKeyword_success (m : Manager) (cat : String) (word : PyValue)
    (m1 : Manager) (h : removeKeyword m cat word = some (m1, true)) :
    ∃ kw1, m1 = notifyM { m with keywords := kw1 } := by
  cases hke : PyValue.dictEntries m.keywords with
  | none => rw [removeKeyword, hke] at h; exact Option.noConfusion h
  | some entries =>
    simp only [removeKeyword, hke] at h
    cases hl : PyValue.lookupKey entries cat with
    | none => rw [hl] at h; simp at h
    | some data =>
      simp only [hl] at h
      cases hde : PyValue.dictEntries data with
      | none => rw [hde] at h; exact Option.noConfusion h
      | some dentries =>
        simp only [hde] at h
        cases hw : PyValue.lookupKey dentries "words" with
        | none => rw [hw] at h; exact Option.noConfusion h
        | some wv =>
          cases wv with
          | str s => rw [hw] at h; exact Option.noConfusion h
          | dict dd => rw [hw] at h; exact Option.noConfusion h
          | list ws =>
            simp only [hw] at h
            cases hm : PyValue.memV word ws with
            | false => rw [hm] at h; simp at h
            | true =>
              rw [hm] at h
              simp at h
              exact ⟨_, h.symm⟩

/-- A successful `add_keyword` returns the manager produced by one
`_notify_change` on the updated mapping. -/
theorem addKeyword_success (m : Manager) (cat : String) (word color : PyValue)
    (m1 : Manager) (h : addKeyword m cat word color = some (m1, true)) :
    ∃ kw1, m1 = notifyM { m with keywords := kw1 } := by
  cases hke : PyValue.dictEntries m.keywords with
  | none => rw [addKeyword, hke] at h; exact Option.noConfusion h
  | some entries =>
    simp only [addKeyword, hke] at h
    cases hl : PyValue.lookupKey (if (PyValue.lookupKey entries cat).isSome then entries
        else PyValue.setKey entries cat
          (.dict [("words", .list []), ("color", color)])) cat with
    | none => rw [hl] at h; exact Option.noConfusion h
    | some data =>
      simp only [hl] at h
      cases hde : PyValue.dictEntries data with
      | none => rw [hde] at h; exact Option.noConfusion h
      | some dentries =>
        simp only [hde] at h
        cases hw : PyValue.lookupKey dentries "words" with
        | none => rw [hw] at h; exact Option.noConfusion h
        | some wv =>
          cases wv with
          | str s => rw [hw] at h; exact Option.noConfusion h
          | dict dd => rw [hw] at h; exact Option.noConfusion h
          | list ws =>
            simp only [hw] at h
            cases hm : PyValue.memV word ws with
            | true => rw [hm] at h; simp at h
            | false =>
              rw [hm] at h
              simp at h
              exact ⟨_, h.symm⟩

/-- C10: whenever both the removal step and the add step of
`update_keyword` succeed, the registered observers are notified exactly
twice during the call — once by `remove_keyword` and once by `add_keyword` —
each time every observer being invoked once (the delivery record has one
outcome per registered callback); the call returns the add's result. -/
theorem update_notifies_twice (m m1 m2 : Manager) (oldCategory newCategory : String)
    (oldWord newWord newColor : PyValue)
    (h1 : removeKeyword m oldCategory oldWord = some (m1, true))
    (h2 : addKeyword m1 newCategory newWord newColor = some (m2, true)) :
    updateKeyword m oldCategory oldWord newCategory newWord newColor =
      some (m2, true) ∧
    m2.callbacks = m.callbacks ∧
    m2.notifyLog = m.notifyLog ++
      [(notifyChange m.callbacks m1.keywords, m1.keywords),
       (notifyChange m.callbacks m2.keywords, m2.keywords)] ∧
    (notifyChange m.callbacks m1.keywords).length = m.callbacks.length ∧
    (notifyChange m.callbacks m2.keywords).length = m.callbacks.length := by
  obtain ⟨kw1, hm1⟩ := removeKeyword_success m oldCategory oldWord m1 h1
  obtain ⟨kw2, hm2⟩ := addKeyword_success m1 newCategory newWord newColor m2 h2
  subst hm2
  subst hm1
  refine ⟨?_, rfl, ?_, notifyChange_length _ _, notifyChange_length _ _⟩
  · rw [updateKeyword, h1]
    exact h2
  · simp [notifyM, List.append_assoc]

/-- Witness for C10: updating `("종료_키워드", "0ㅅ0")` to a fresh pair on
`mgrOneCb` succeeds in both steps and leaves exactly two notification
deliveries in the trace. -/
theorem update_notifies_twice_witness :
    updateKeyword mgrOneCb "종료_키워드" (.str "0ㅅ0") "내분류" (.str "몰몰")
        (.str "#333333") = some (addStep.1, true) ∧
    addStep.1.notifyLog.length = 2 := by
  obtain ⟨hu, _, hlog, _, _⟩ :=
    update_notifies_twice mgrOneCb remStep.1 addStep.1 "종료_키워드" "내분류"
      (.str "0ㅅ0") (.str "몰몰") (.str "#333333") rfl rfl
  refine ⟨hu, ?_⟩
  rw [hlog]
  rfl
